import Mathlib

/-!
Shallow embedding of the icesrag multi-strategy retrieval pipeline.

Source files embedded:
* icesrag/retrieve/rerank/rrf.py          (reciprocal rank fusion)
* icesrag/retrieve/pipeline/retriever.py  (CompositeRetriever)
* icesrag/retrieve/retrievers/sqlite.py   (sparse BM25 retriever)
* icesrag/retrieve/retrievers/chroma.py   (dense vector retriever)

Python dictionaries are modelled as association lists in insertion
order (lookup returns the first binding, matching dict semantics when
keys are unique).  Python floats are modelled as rationals.  External
services (the BM25 scorer, the chroma nearest-neighbour index, JSON
decoding) are abstract function parameters.
-/

abbrev DocId := String

abbrev StrategyName := String

/-- Fusion input: strategy name -> (chunk id -> 1-based rank), as in
`rerank(self, rankings: Dict[str, Dict[str, int]])`. -/
abbrev Rankings := List (StrategyName × List (DocId × Nat))

/-- rrf.py, `_rrf(ranking, k=60)`: `final_rank = 0; for rank in ranking:
final_rank += 1 / (k + rank + 1)`.  The call site in `rerank` uses the
default `k = 60`. -/
def _rrf (ranking : List Nat) (k : ℚ) : ℚ :=
  ranking.foldl (fun (final_rank : ℚ) (rank : Nat) => final_rank + 1 / (k + (rank : ℚ) + 1)) 0

namespace ReciprocalRerankFusion

/-- rrf.py lines 55-64: `max_rank = 0`, then over every strategy and
every chunk, `if rank > max_rank: max_rank = rank`. -/
def maxRank (rankings : Rankings) : Nat :=
  rankings.foldl (fun m strategy => strategy.2.foldl (fun m p => max m p.2) m) 0

/-- rrf.py lines 59-70: the rank list accumulated in `final_d[chunk]`,
one entry per strategy whose dict contains `chunk`, in strategy order. -/
def collectRanks (rankings : Rankings) (chunk : DocId) : List Nat :=
  rankings.filterMap (fun strategy => strategy.2.lookup chunk)

/-- First-occurrence-order deduplication, modelling the insertion order
of the keys of the Python dict `final_d`. -/
def dedupFirst : List DocId → List DocId
  | [] => []
  | x :: xs => x :: dedupFirst (xs.filter (fun y => y ≠ x))
termination_by l => l.length
decreasing_by
  simp only [List.length_cons]
  exact Nat.lt_succ_of_le (List.length_filter_le _ _)

/-- The keys of `final_d`: every chunk id appearing in some strategy,
in first-seen order. -/
def unionDocs (rankings : Rankings) : List DocId :=
  dedupFirst (rankings.flatMap (fun strategy => strategy.2.map Prod.fst))

/-- rrf.py lines 75-84: pad `final_d[chunk]` with `max_rank + 1` once per
missing strategy, so the list reaches length `n_strategies`. -/
def paddedRanks (rankings : Rankings) (chunk : DocId) : List Nat :=
  let curr := collectRanks rankings chunk
  curr ++ List.replicate (rankings.length - curr.length) (maxRank rankings + 1)

/-- rrf.py line 86: `final_d[chunk] = _rrf(final_d[chunk])`. -/
def scoreOf (rankings : Rankings) (chunk : DocId) : ℚ :=
  _rrf (paddedRanks rankings chunk) 60

/-- rrf.py `ReciprocalRerankFusion.rerank`: build the per-chunk padded
rank lists, score each with `_rrf`, and sort by score descending
(`sorted(..., key=value, reverse=True)` is stable, as mergeSort is). -/
def rerank (rankings : Rankings) : List (DocId × ℚ) :=
  ((unionDocs rankings).map (fun chunk => (chunk, scoreOf rankings chunk))).mergeSort
    (fun a b => decide (b.2 ≤ a.2))

end ReciprocalRerankFusion

/-- Pointwise surgery on a fusion input: document `d`'s rank inside the
strategy named `s` is replaced by `r2`; every other binding is kept. -/
def updateRank (R : Rankings) (s : StrategyName) (d : DocId) (r2 : Nat) : Rankings :=
  R.map (fun t =>
    if t.1 = s then (t.1, t.2.map (fun p => if p.1 = d then (p.1, r2) else p)) else t)

/-- A query value flowing through the composite pipeline: raw or
preprocessed text, or an embedding vector. -/
inductive Query where
  | text (s : String)
  | vec (v : List Int)
deriving DecidableEq

/-- Metadata dictionary of one document in one strategy. -/
abbrev Metadata := List (String × String)

/-- The dictionary returned by each retriever's `rank_all`:
`{'documents':..., 'document_ids':..., 'rankings':..., 'metadatas':...}`. -/
structure RankAll where
  documents : List String
  document_ids : List DocId
  rankings : List Nat
  metadatas : List Metadata
deriving DecidableEq

/-- A strategy descriptor dict for `CompositeRetriever`.  Each field is
`some` exactly when the corresponding key is present (holding a valid
engine).  The constructor docstring documents the key `embedder` while
`retrieve` reads the key `embed`; both are modelled. -/
structure Strategy where
  name : Option StrategyName
  preprocess : Option (String → String)
  embed : Option (String → List Int)
  embedder : Option (String → List Int)
  retriever : Option (Query → RankAll)

/-- A Python exception escaping the retrieval pipeline. -/
inductive PyError where
  | keyError (key : String)
deriving DecidableEq

/-- Python dict assignment `m[key] = val`: replace in place if the key
exists, else append. -/
def dictInsert {β : Type} (m : List (StrategyName × β)) (key : StrategyName) (val : β) :
    List (StrategyName × β) :=
  if m.any (fun p => p.1 = key) then m.map (fun p => if p.1 = key then (key, val) else p)
  else m ++ [(key, val)]

/-- Python dict union `a | b` (retriever.py line 111, the metadata melt):
keys of `a` first with `b`'s value on collisions, then keys only in `b`. -/
def dictUnion (a b : Metadata) : Metadata :=
  a.map (fun p => match b.lookup p.1 with | some v => (p.1, v) | none => p)
    ++ b.filter (fun p => (a.lookup p.1).isNone)

namespace CompositeRetriever

/-- retriever.py `CompositeRetriever.__init__`: stores the strategy list
and reranker; performs no validation (only logging). -/
structure State where
  strategies_ : List Strategy
  reranker_ : Rankings → List (DocId × ℚ)

/-- retriever.py `CompositeRetriever.__init__`. -/
def init (strategies : List Strategy) (reranker : Rankings → List (DocId × ℚ)) : State :=
  ⟨strategies, reranker⟩

/-- retriever.py lines 53-67: `temp_query = query`, then the optional
preprocess (key 'preprocess') and the optional embedding, whose key is
'embed' — not the constructor-documented 'embedder'. -/
def stageQuery (strategy : Strategy) (query : String) : Query :=
  let temp_query :=
    match strategy.preprocess with
    | some preprocesser => preprocesser query
    | none => query
  match strategy.embed with
  | some e => Query.vec (e temp_query)
  | none => Query.text temp_query

/-- retriever.py lines 50-79: the per-strategy loop.  `strategy['name']`
and `strategy['retriever']` raise KeyError when absent; `rank_d` pairs
`document_ids[i]` with `rankings[i]`. -/
def runStrategies (strategies : List Strategy) (query : String) :
    Except PyError (List (StrategyName × RankAll) × Rankings) :=
  strategies.foldlM (fun acc strategy => do
    let name ← match strategy.name with
      | some n => pure n
      | none => throw (PyError.keyError "name")
    let temp_query := stageQuery strategy query
    let retr ← match strategy.retriever with
      | some r => pure r
      | none => throw (PyError.keyError "retriever")
    let res := retr temp_query
    let rank_d := List.zip res.document_ids res.rankings
    pure (dictInsert acc.1 name res, dictInsert acc.2 name rank_d))
    (([], []) : List (StrategyName × RankAll) × Rankings)

/-- retriever.py lines 93-113: the assembly loop over the top-`k` fused
ids.  `temp = {}` is created per id and — exactly as in the source —
never written, so both `'document' not in temp.keys()` and
`'metadata' not in temp.keys()` hold at every iteration. -/
def assemble (results : List (StrategyName × RankAll)) (fusion_rank : List (DocId × ℚ))
    (k : Nat) : List String × List ℚ × List Metadata :=
  ((fusion_rank.map Prod.fst).take k).foldl (fun acc id =>
    let temp : List (String × Metadata) := []
    let scores := acc.2.1 ++ [(fusion_rank.lookup id).getD 0]
    let inner := results.foldl (fun (acc2 : List String × List Metadata) result =>
      match result.2.document_ids.indexOf? id with
      | some chunk_pos =>
        let docs :=
          if (temp.lookup "document").isNone
          then acc2.1 ++ [result.2.documents.getD chunk_pos ""] else acc2.1
        let metas :=
          if (temp.lookup "metadata").isNone
          then acc2.2 ++ [result.2.metadatas.getD chunk_pos []]
          else acc2.2 ++ [dictUnion (result.2.metadatas.getD chunk_pos [])
            ((temp.lookup "metadata").getD [])]
        (docs, metas)
      | none => acc2) (acc.1, acc.2.2)
    (inner.1, scores, inner.2)) (([], [], []) : List String × List ℚ × List Metadata)

/-- retriever.py `CompositeRetriever.retrieve`: run every strategy, fuse
with the configured reranker, clamp `k` to the fused size, assemble. -/
def retrieve (strategies : List Strategy) (reranker : Rankings → List (DocId × ℚ))
    (query : String) (k : Nat) :
    Except PyError (List String × List ℚ × List Metadata) := do
  let st ← runStrategies strategies query
  let fusion_rank := reranker st.2
  let k := if k > fusion_rank.length then fusion_rank.length else k
  pure (assemble st.1 fusion_rank k)

end CompositeRetriever

/-- Python `str.lower()`, character by character. -/
def pyLower (s : String) : String := String.mk (s.data.map Char.toLower)

/-- One row of the SQLite collection table: columns `ids`, `documents`,
`embeddings` (the tokenized document text BM25 consumes), and `metadatas`
(a JSON-encoded string). -/
structure Row where
  ids : DocId
  documents : String
  embeddings : List String
  metadatas : String
deriving DecidableEq

/-- sqlite.py `_retrieve_and_rank`: read the whole table, score every row
for the query with BM25 over the whole corpus (the scorer is an abstract
parameter standing for `rank_bm25.BM25Okapi`), sort by score descending
(`sort_values(by='score', ascending=False)`), and attach the rank column
`np.arange(1, len(data) + 1)`. -/
def _retrieve_and_rank (bm25 : List Row → String → Row → ℚ) (query : String)
    (table : List Row) : List (Row × ℚ × Nat) :=
  let data := table.map (fun row => (row, bm25 table query row))
  let sorted := data.mergeSort (fun a b => decide (b.2 ≤ a.2))
  sorted.zipWith (fun p i => (p.1, p.2, i)) (List.range' 1 sorted.length)

namespace SQLiteRetriever

/-- sqlite.py `SQLiteRetriever.rank_all`: package the ranked frame's
columns; each metadata JSON string is decoded (`json.loads`, abstract). -/
def rank_all (bm25 : List Row → String → Row → ℚ) (jsonLoads : String → Metadata)
    (query : String) (table : List Row) : RankAll :=
  let data := _retrieve_and_rank bm25 query table
  { documents := data.map (fun x => x.1.documents)
    document_ids := data.map (fun x => x.1.ids)
    rankings := data.map (fun x => x.2.2)
    metadatas := data.map (fun x => jsonLoads x.1.metadatas) }

/-- The error raised by `SQLiteRetriever.connect`. -/
inductive ConnectError where
  | reservedName
  | missingCollection (name : String)
deriving DecidableEq

/-- Observable database interactions of `connect`, in program order. -/
inductive DbStep where
  | openDb (dbpath : String)
  | tableRead (table : String)
deriving DecidableEq

/-- The fields `self.client` / `self.collection` after `connect`. -/
structure ConnState where
  client : Option String
  collection : Option String
deriving DecidableEq

/-- sqlite.py `SQLiteRetriever.connect`: `sqlite3.connect(dbpath)` first,
then `assert collection_name.lower() != 'corpus'`, and only then the
existence probe `SELECT * FROM collection_name LIMIT 1` (which fails when
the table is absent from the database). -/
def connect (tables : List String) (dbpath : String) (collection_name : String) :
    Except ConnectError ConnState × List DbStep :=
  let steps := [DbStep.openDb dbpath]
  if pyLower collection_name = "corpus" then
    (Except.error ConnectError.reservedName, steps)
  else
    let steps := steps ++ [DbStep.tableRead collection_name]
    if tables.contains collection_name then
      (Except.ok ⟨some dbpath, some collection_name⟩, steps)
    else
      (Except.error (ConnectError.missingCollection collection_name), steps)

end SQLiteRetriever

/-- One entry of a chroma collection. -/
structure ChromaEntry where
  id : DocId
  document : String
  metadata : Metadata
deriving DecidableEq

namespace ChromaRetriever

/-- The external chroma index, modelled as the queryable ranked-lookup
service the core requires: `collection.query(..., n_results=n)` returns
the first `n` entries ordered by ascending distance to the query. -/
def collectionQuery (dist : Query → ChromaEntry → ℚ) (query : Query)
    (col : List ChromaEntry) (n_results : Nat) : List ChromaEntry :=
  (col.mergeSort (fun a b => decide (dist query a ≤ dist query b))).take n_results

/-- chroma.py `ChromaRetriever.rank_all`: query the collection with
`n_results = collection.count()` and enumerate the rankings as
`[i + 1 for i in range(0, len(document_ids))]`. -/
def rank_all (dist : Query → ChromaEntry → ℚ) (query : Query)
    (col : List ChromaEntry) : RankAll :=
  let results := collectionQuery dist query col col.length
  { documents := results.map (fun e => e.document)
    document_ids := results.map (fun e => e.id)
    rankings := (List.range (results.map (fun e => e.id)).length).map (fun i => i + 1)
    metadatas := results.map (fun e => e.metadata) }

end ChromaRetriever

/-- A two-strategy fixture: the dense strategy's `rank_all` output over
the corpus d1, d2. -/
def rankAllDense : RankAll :=
  ⟨["docA1", "docA2"], ["d1", "d2"], [1, 2], [[("t", "A1")], [("t", "A2")]]⟩

/-- The sparse strategy's `rank_all` output over the same corpus, with
its own document texts and metadata. -/
def rankAllSparse : RankAll :=
  ⟨["docB1", "docB2"], ["d1", "d2"], [1, 2], [[("t", "B1"), ("u", "B")], [("t", "B2")]]⟩

/-- Well-formed dense strategy descriptor bound to `rankAllDense`. -/
def stratDense : Strategy := ⟨some "dense", none, none, none, some (fun _ => rankAllDense)⟩

/-- Well-formed sparse strategy descriptor bound to `rankAllSparse`. -/
def stratSparse : Strategy := ⟨some "sparse", none, none, none, some (fun _ => rankAllSparse)⟩

section RrfLemmas

open ReciprocalRerankFusion

theorem foldl_add_div (l : List Nat) (k a : ℚ) :
    l.foldl (fun (acc : ℚ) (r : Nat) => acc + 1 / (k + (r : ℚ) + 1)) a
      = a + (l.map (fun (r : Nat) => 1 / (k + (r : ℚ) + 1))).sum := by
  induction l generalizing a with
  | nil => simp
  | cons x xs ih =>
    rw [List.foldl_cons, List.map_cons, List.sum_cons, ih]
    ring

theorem _rrf_eq_sum (l : List Nat) (k : ℚ) :
    _rrf l k = (l.map (fun (r : Nat) => 1 / (k + (r : ℚ) + 1))).sum := by
  rw [_rrf, foldl_add_div, zero_add]

theorem mem_dedupFirst (d : DocId) : ∀ (l : List DocId), d ∈ dedupFirst l ↔ d ∈ l := by
  intro l
  induction l using dedupFirst.induct with
  | case1 => simp [dedupFirst]
  | case2 x xs ih =>
    simp only [dedupFirst, List.mem_cons, ih, List.mem_filter]
    constructor
    · rintro (rfl | ⟨h, _⟩)
      · exact Or.inl rfl
      · exact Or.inr h
    · rintro (rfl | h)
      · exact Or.inl rfl
      · by_cases hx : d = x
        · exact Or.inl hx
        · exact Or.inr ⟨h, by simp [hx]⟩

theorem rerank_perm (rankings : Rankings) :
    (ReciprocalRerankFusion.rerank rankings).Perm
      ((unionDocs rankings).map (fun chunk => (chunk, scoreOf rankings chunk))) :=
  List.mergeSort_perm _ _

theorem mem_rerank_val (rankings : Rankings) (q : DocId × ℚ)
    (h : q ∈ ReciprocalRerankFusion.rerank rankings) : q.2 = scoreOf rankings q.1 := by
  have h2 := (rerank_perm rankings).mem_iff.mp h
  obtain ⟨c, _, rfl⟩ := List.mem_map.mp h2
  rfl

end RrfLemmas

/-- Claim C1: for every document with rank contributions collected (and
padded) across strategies, `ReciprocalRerankFusion.rerank` assigns it the
fused score `Σ 1 / (60 + r + 1)` over those contributions; in particular,
a document ranked 1 by both of two strategies gets exactly `2/62`. -/
theorem rrf_fused_score (rankings : Rankings) (d : DocId)
    (h : d ∈ ReciprocalRerankFusion.unionDocs rankings) :
    (d, ((ReciprocalRerankFusion.paddedRanks rankings d).map
          (fun (r : Nat) => 1 / (60 + (r : ℚ) + 1))).sum) ∈ ReciprocalRerankFusion.rerank rankings
    ∧ (∀ q ∈ ReciprocalRerankFusion.rerank rankings, q.1 = d →
        q.2 = ((ReciprocalRerankFusion.paddedRanks rankings d).map
          (fun (r : Nat) => 1 / (60 + (r : ℚ) + 1))).sum)
    ∧ List.lookup "d1"
        (ReciprocalRerankFusion.rerank [("A", [("d1", 1)]), ("B", [("d1", 1)])])
        = some (2 / 62) := by
  refine ⟨?_, ?_, ?_⟩
  · have : (d, ReciprocalRerankFusion.scoreOf rankings d) ∈
        (ReciprocalRerankFusion.unionDocs rankings).map
          (fun chunk => (chunk, ReciprocalRerankFusion.scoreOf rankings chunk)) :=
      List.mem_map.mpr ⟨d, h, rfl⟩
    have hmem := (rerank_perm rankings).mem_iff.mpr this
    rwa [ReciprocalRerankFusion.scoreOf, _rrf_eq_sum] at hmem
  · intro q hq hqd
    have := mem_rerank_val rankings q hq
    rw [this, hqd, ReciprocalRerankFusion.scoreOf, _rrf_eq_sum]
  · simp [ReciprocalRerankFusion.rerank, ReciprocalRerankFusion.unionDocs,
      ReciprocalRerankFusion.dedupFirst, ReciprocalRerankFusion.scoreOf,
      ReciprocalRerankFusion.paddedRanks, ReciprocalRerankFusion.collectRanks,
      ReciprocalRerankFusion.maxRank, _rrf, List.mergeSort, List.lookup]
    norm_num

/-- Witness for C1 at a concrete two-strategy input. -/
theorem rrf_fused_score_witness :
    ("d1", ((ReciprocalRerankFusion.paddedRanks [("A", [("d1", 1)]), ("B", [("d1", 1)])] "d1").map
          (fun (r : Nat) => 1 / (60 + (r : ℚ) + 1))).sum) ∈
        ReciprocalRerankFusion.rerank [("A", [("d1", 1)]), ("B", [("d1", 1)])]
    ∧ (∀ q ∈ ReciprocalRerankFusion.rerank [("A", [("d1", 1)]), ("B", [("d1", 1)])], q.1 = "d1" →
        q.2 = ((ReciprocalRerankFusion.paddedRanks [("A", [("d1", 1)]), ("B", [("d1", 1)])] "d1").map
          (fun (r : Nat) => 1 / (60 + (r : ℚ) + 1))).sum)
    ∧ List.lookup "d1"
        (ReciprocalRerankFusion.rerank [("A", [("d1", 1)]), ("B", [("d1", 1)])])
        = some (2 / 62) :=
  rrf_fused_score [("A", [("d1", 1)]), ("B", [("d1", 1)])] "d1"
    (by simp [ReciprocalRerankFusion.unionDocs, ReciprocalRerankFusion.dedupFirst])

section MaxRankLemmas

open ReciprocalRerankFusion

theorem le_foldl_max_inner (l : List (DocId × Nat)) (m : Nat) :
    m ≤ l.foldl (fun m p => max m p.2) m := by
  induction l generalizing m with
  | nil => exact Nat.le_refl m
  | cons x xs ih =>
    exact Nat.le_trans (Nat.le_max_left m x.2) (ih (max m x.2))

theorem mem_le_foldl_max_inner (l : List (DocId × Nat)) (p : DocId × Nat) :
    ∀ m : Nat, p ∈ l → p.2 ≤ l.foldl (fun m p => max m p.2) m := by
  induction l with
  | nil => intro m hp; cases hp
  | cons x xs ih =>
    intro m hp
    rcases List.mem_cons.mp hp with rfl | hmem
    · exact Nat.le_trans (Nat.le_max_right m p.2) (le_foldl_max_inner xs _)
    · exact ih _ hmem

theorem foldl_max_inner_le (l : List (DocId × Nat)) (m B : Nat)
    (hm : m ≤ B) (h : ∀ p ∈ l, p.2 ≤ B) : l.foldl (fun m p => max m p.2) m ≤ B := by
  induction l generalizing m with
  | nil => exact hm
  | cons x xs ih =>
    exact ih (max m x.2) (Nat.max_le.mpr ⟨hm, h x (List.mem_cons_self x xs)⟩)
      (fun p hp => h p (List.mem_cons_of_mem x hp))

theorem le_foldl_max_outer (R : Rankings) (m : Nat) :
    m ≤ R.foldl (fun m strategy => strategy.2.foldl (fun m p => max m p.2) m) m := by
  induction R generalizing m with
  | nil => exact Nat.le_refl m
  | cons s rest ih =>
    exact Nat.le_trans (le_foldl_max_inner s.2 m) (ih _)

theorem rank_le_fold_outer (R : Rankings) (s : StrategyName × List (DocId × Nat))
    (p : DocId × Nat) :
    ∀ m : Nat, s ∈ R → p ∈ s.2 →
      p.2 ≤ R.foldl (fun m strategy => strategy.2.foldl (fun m p => max m p.2) m) m := by
  induction R with
  | nil => intro m hs; cases hs
  | cons t rest ih =>
    intro m hs hp
    rcases List.mem_cons.mp hs with rfl | hmem
    · exact Nat.le_trans (mem_le_foldl_max_inner s.2 p m hp) (le_foldl_max_outer rest _)
    · exact ih _ hmem hp

theorem rank_le_maxRank (R : Rankings) (s : StrategyName × List (DocId × Nat))
    (hs : s ∈ R) (p : DocId × Nat) (hp : p ∈ s.2) : p.2 ≤ maxRank R := by
  rw [maxRank]
  exact rank_le_fold_outer R s p 0 hs hp

theorem maxRank_le (R : Rankings) (B : Nat)
    (h : ∀ s ∈ R, ∀ p ∈ s.2, p.2 ≤ B) : maxRank R ≤ B := by
  rw [maxRank]
  have : ∀ (m : Nat), m ≤ B →
      R.foldl (fun m strategy => strategy.2.foldl (fun m p => max m p.2) m) m ≤ B := by
    induction R with
    | nil => intro m hm; exact hm
    | cons t rest ih =>
      intro m hm
      exact ih (fun s hs p hp => h s (List.mem_cons_of_mem t hs) p hp) _
        (foldl_max_inner_le t.2 m B hm (h t (List.mem_cons_self t rest)))
  exact this 0 (Nat.zero_le B)

theorem foldl_max_inner_cases (l : List (DocId × Nat)) :
    ∀ m : Nat, l.foldl (fun m p => max m p.2) m = m
      ∨ ∃ p ∈ l, l.foldl (fun m p => max m p.2) m = p.2 := by
  induction l with
  | nil => intro m; exact Or.inl rfl
  | cons x xs ih =>
    intro m
    rw [List.foldl_cons]
    rcases ih (max m x.2) with h | ⟨p, hp, hv⟩
    · rcases max_choice m x.2 with h2 | h2
      · exact Or.inl (by rw [h, h2])
      · exact Or.inr ⟨x, List.mem_cons_self x xs, by rw [h, h2]⟩
    · exact Or.inr ⟨p, List.mem_cons_of_mem x hp, hv⟩

theorem foldl_max_outer_cases (R : Rankings) :
    ∀ m : Nat,
      R.foldl (fun m strategy => strategy.2.foldl (fun m p => max m p.2) m) m = m
      ∨ ∃ s ∈ R, ∃ p ∈ s.2,
          R.foldl (fun m strategy => strategy.2.foldl (fun m p => max m p.2) m) m = p.2 := by
  induction R with
  | nil => intro m; exact Or.inl rfl
  | cons t rest ih =>
    intro m
    rw [List.foldl_cons]
    rcases ih (t.2.foldl (fun m p => max m p.2) m) with h | ⟨s, hs, p, hp, hv⟩
    · rcases foldl_max_inner_cases t.2 m with h2 | ⟨p, hp, hv⟩
      · exact Or.inl (by rw [h, h2])
      · exact Or.inr ⟨t, List.mem_cons_self t rest, p, hp, by rw [h, hv]⟩
    · exact Or.inr ⟨s, List.mem_cons_of_mem t hs, p, hp, hv⟩

theorem maxRank_attained (R : Rankings) :
    maxRank R = 0 ∨ ∃ s ∈ R, ∃ p ∈ s.2, p.2 = maxRank R := by
  rw [maxRank]
  rcases foldl_max_outer_cases R 0 with h | ⟨s, hs, p, hp, hv⟩
  · exact Or.inl h
  · exact Or.inr ⟨s, hs, p, hp, hv.symm⟩

theorem length_collectRanks_eq_filter (R : Rankings) (d : DocId) :
    (collectRanks R d).length
      = (R.filter (fun strategy => (strategy.2.lookup d).isSome)).length := by
  rw [collectRanks]
  induction R with
  | nil => rfl
  | cons t rest ih =>
    rw [List.filterMap_cons, List.filter_cons]
    cases h : t.2.lookup d with
    | none => simpa [h] using ih
    | some r => simpa [h] using ih

end MaxRankLemmas

/-- Claim C2: before scoring, every document's rank list is padded to
exactly one contribution per strategy: the collected ranks are followed by
`N - k` copies of `maxRank + 1` (for a document found in `k` of the `N`
strategies), the padded list has length exactly `N`, and `maxRank` is the
maximum rank observed across all strategies' rank maps: it bounds every
observed rank and, unless zero, is attained by one of them. -/
theorem rrf_equal_representation (R : Rankings) (d : DocId) :
    (ReciprocalRerankFusion.paddedRanks R d).length = R.length
    ∧ (ReciprocalRerankFusion.collectRanks R d).length
        = (R.filter (fun strategy => (strategy.2.lookup d).isSome)).length
    ∧ (ReciprocalRerankFusion.paddedRanks R d).drop
          (ReciprocalRerankFusion.collectRanks R d).length
        = List.replicate (R.length - (ReciprocalRerankFusion.collectRanks R d).length)
            (ReciprocalRerankFusion.maxRank R + 1)
    ∧ (∀ s ∈ R, ∀ p ∈ s.2, p.2 ≤ ReciprocalRerankFusion.maxRank R)
    ∧ (ReciprocalRerankFusion.maxRank R = 0
        ∨ ∃ s ∈ R, ∃ p ∈ s.2, p.2 = ReciprocalRerankFusion.maxRank R) := by
  have hle : (ReciprocalRerankFusion.collectRanks R d).length ≤ R.length :=
    List.length_filterMap_le _ _
  refine ⟨?_, length_collectRanks_eq_filter R d, ?_, rank_le_maxRank R, maxRank_attained R⟩
  · rw [ReciprocalRerankFusion.paddedRanks]
    simp only [List.length_append, List.length_replicate]
    omega
  · rw [ReciprocalRerankFusion.paddedRanks]
    simp only [List.drop_left]

section RetrieverRankLemmas

theorem mergeSort_desc_sorted {α : Type} (l : List (α × ℚ)) :
    List.Pairwise (fun a b => b.2 ≤ a.2) (l.mergeSort (fun a b => decide (b.2 ≤ a.2))) := by
  have h := @List.sorted_mergeSort (α × ℚ) (fun a b => decide (b.2 ≤ a.2))
    (fun a b c hab hbc => by
      rw [decide_eq_true_eq] at *
      exact le_trans hbc hab)
    (fun a b => by
      rcases le_total a.2 b.2 with h | h <;> simp [h])
    l
  exact h.imp (fun hab => by rwa [decide_eq_true_eq] at hab)

theorem zipWith_rank_proj (l : List (Row × ℚ)) :
    ∀ r : List Nat, r.length = l.length →
      (List.zipWith (fun p i => (p.1, p.2, i)) l r).map (fun x => x.2.1)
          = l.map (fun p => p.2)
      ∧ (List.zipWith (fun p i => (p.1, p.2, i)) l r).map (fun x => x.2.2) = r := by
  induction l with
  | nil =>
    intro r h
    rw [List.length_nil, List.length_eq_zero] at h
    subst h
    simp
  | cons x xs ih =>
    intro r h
    cases r with
    | nil => simp at h
    | cons y ys =>
      have h2 : ys.length = xs.length := by simpa using h
      obtain ⟨h3, h4⟩ := ih ys h2
      simp [h3, h4]

theorem _retrieve_and_rank_score_col (bm25 : List Row → String → Row → ℚ) (query : String)
    (table : List Row) :
    (_retrieve_and_rank bm25 query table).map (fun x => x.2.1)
      = ((table.map (fun row => (row, bm25 table query row))).mergeSort
          (fun a b => decide (b.2 ≤ a.2))).map (fun p => p.2) := by
  have h := zipWith_rank_proj
    ((table.map (fun row => (row, bm25 table query row))).mergeSort
      (fun a b => decide (b.2 ≤ a.2)))
    (List.range' 1 ((table.map (fun row => (row, bm25 table query row))).mergeSort
      (fun a b => decide (b.2 ≤ a.2))).length)
    (List.length_range' _ _ _)
  exact h.1

theorem _retrieve_and_rank_rank_col (bm25 : List Row → String → Row → ℚ) (query : String)
    (table : List Row) :
    (_retrieve_and_rank bm25 query table).map (fun x => x.2.2)
      = List.range' 1 table.length := by
  have h := zipWith_rank_proj
    ((table.map (fun row => (row, bm25 table query row))).mergeSort
      (fun a b => decide (b.2 ≤ a.2)))
    (List.range' 1 ((table.map (fun row => (row, bm25 table query row))).mergeSort
      (fun a b => decide (b.2 ≤ a.2))).length)
    (List.length_range' _ _ _)
  have hlen : ((table.map (fun row => (row, bm25 table query row))).mergeSort
      (fun a b => decide (b.2 ≤ a.2))).length = table.length := by
    rw [List.length_mergeSort, List.length_map]
  simp only [_retrieve_and_rank]
  rw [h.2, hlen]

theorem _retrieve_and_rank_length (bm25 : List Row → String → Row → ℚ) (query : String)
    (table : List Row) :
    (_retrieve_and_rank bm25 query table).length = table.length := by
  have h := congrArg List.length (_retrieve_and_rank_rank_col bm25 query table)
  rwa [List.length_map, List.length_range'] at h

end RetrieverRankLemmas

/-- Claim C5: over a non-empty corpus of size N, both concrete
`rank_all` implementations return parallel documents / document_ids /
rankings / metadatas sequences of length N, whose rankings are exactly
the gap-free, duplicate-free list 1..N. -/
theorem rank_all_totality
    (bm25 : List Row → String → Row → ℚ) (jsonLoads : String → Metadata)
    (qs : String) (table : List Row) (hts : table ≠ [])
    (dist : Query → ChromaEntry → ℚ) (qc : Query) (col : List ChromaEntry) (hc : col ≠ []) :
    ((SQLiteRetriever.rank_all bm25 jsonLoads qs table).documents.length = table.length
      ∧ (SQLiteRetriever.rank_all bm25 jsonLoads qs table).document_ids.length = table.length
      ∧ (SQLiteRetriever.rank_all bm25 jsonLoads qs table).metadatas.length = table.length
      ∧ (SQLiteRetriever.rank_all bm25 jsonLoads qs table).rankings = List.range' 1 table.length
      ∧ (SQLiteRetriever.rank_all bm25 jsonLoads qs table).rankings.Nodup
      ∧ (∀ m, m ∈ (SQLiteRetriever.rank_all bm25 jsonLoads qs table).rankings
            ↔ 1 ≤ m ∧ m ≤ table.length))
    ∧ ((ChromaRetriever.rank_all dist qc col).documents.length = col.length
      ∧ (ChromaRetriever.rank_all dist qc col).document_ids.length = col.length
      ∧ (ChromaRetriever.rank_all dist qc col).metadatas.length = col.length
      ∧ (ChromaRetriever.rank_all dist qc col).rankings = List.range' 1 col.length
      ∧ (ChromaRetriever.rank_all dist qc col).rankings.Nodup
      ∧ (∀ m, m ∈ (ChromaRetriever.rank_all dist qc col).rankings
            ↔ 1 ≤ m ∧ m ≤ col.length)) := by
  have hdata := _retrieve_and_rank_length bm25 qs table
  have hrank := _retrieve_and_rank_rank_col bm25 qs table
  have hsl : ∀ m, m ∈ List.range' 1 table.length ↔ 1 ≤ m ∧ m ≤ table.length := by
    intro m
    rw [List.mem_range'_1]
    omega
  have hchromalen :
      (ChromaRetriever.collectionQuery dist qc col col.length).length = col.length := by
    rw [ChromaRetriever.collectionQuery, List.length_take, List.length_mergeSort]
    exact Nat.min_self _
  have hcr : (ChromaRetriever.rank_all dist qc col).rankings = List.range' 1 col.length := by
    rw [ChromaRetriever.rank_all]
    simp only [List.length_map, hchromalen]
    rw [List.range'_eq_map_range]
    exact List.map_congr_left (fun a _ => Nat.add_comm a 1)
  refine ⟨⟨?_, ?_, ?_, hrank, ?_, ?_⟩, ⟨?_, ?_, ?_, hcr, ?_, ?_⟩⟩
  · rw [SQLiteRetriever.rank_all]
    simp only [List.length_map]
    exact hdata
  · rw [SQLiteRetriever.rank_all]
    simp only [List.length_map]
    exact hdata
  · rw [SQLiteRetriever.rank_all]
    simp only [List.length_map]
    exact hdata
  · rw [show (SQLiteRetriever.rank_all bm25 jsonLoads qs table).rankings
        = List.range' 1 table.length from hrank]
    exact List.nodup_range' _ _
  · intro m
    rw [show (SQLiteRetriever.rank_all bm25 jsonLoads qs table).rankings
        = List.range' 1 table.length from hrank]
    exact hsl m
  · rw [ChromaRetriever.rank_all]
    simp only [List.length_map]
    exact hchromalen
  · rw [ChromaRetriever.rank_all]
    simp only [List.length_map]
    exact hchromalen
  · rw [ChromaRetriever.rank_all]
    simp only [List.length_map]
    exact hchromalen
  · rw [hcr]
    exact List.nodup_range' _ _
  · intro m
    rw [hcr, List.mem_range'_1]
    omega

/-- Witness for C5 on one-element corpora. -/
theorem rank_all_totality_witness :
    ((SQLiteRetriever.rank_all (fun _ _ _ => (0 : ℚ)) (fun _ => []) "q"
          [⟨"id1", "doc1", ["doc1"], "m"⟩]).documents.length = 1
      ∧ (SQLiteRetriever.rank_all (fun _ _ _ => (0 : ℚ)) (fun _ => []) "q"
          [⟨"id1", "doc1", ["doc1"], "m"⟩]).document_ids.length = 1
      ∧ (SQLiteRetriever.rank_all (fun _ _ _ => (0 : ℚ)) (fun _ => []) "q"
          [⟨"id1", "doc1", ["doc1"], "m"⟩]).metadatas.length = 1
      ∧ (SQLiteRetriever.rank_all (fun _ _ _ => (0 : ℚ)) (fun _ => []) "q"
          [⟨"id1", "doc1", ["doc1"], "m"⟩]).rankings = List.range' 1 1
      ∧ (SQLiteRetriever.rank_all (fun _ _ _ => (0 : ℚ)) (fun _ => []) "q"
          [⟨"id1", "doc1", ["doc1"], "m"⟩]).rankings.Nodup
      ∧ (∀ m, m ∈ (SQLiteRetriever.rank_all (fun _ _ _ => (0 : ℚ)) (fun _ => []) "q"
          [⟨"id1", "doc1", ["doc1"], "m"⟩]).rankings ↔ 1 ≤ m ∧ m ≤ 1))
    ∧ ((ChromaRetriever.rank_all (fun _ _ => (0 : ℚ)) (Query.text "q")
          [⟨"id1", "doc1", []⟩]).documents.length = 1
      ∧ (ChromaRetriever.rank_all (fun _ _ => (0 : ℚ)) (Query.text "q")
          [⟨"id1", "doc1", []⟩]).document_ids.length = 1
      ∧ (ChromaRetriever.rank_all (fun _ _ => (0 : ℚ)) (Query.text "q")
          [⟨"id1", "doc1", []⟩]).metadatas.length = 1
      ∧ (ChromaRetriever.rank_all (fun _ _ => (0 : ℚ)) (Query.text "q")
          [⟨"id1", "doc1", []⟩]).rankings = List.range' 1 1
      ∧ (ChromaRetriever.rank_all (fun _ _ => (0 : ℚ)) (Query.text "q")
          [⟨"id1", "doc1", []⟩]).rankings.Nodup
      ∧ (∀ m, m ∈ (ChromaRetriever.rank_all (fun _ _ => (0 : ℚ)) (Query.text "q")
          [⟨"id1", "doc1", []⟩]).rankings ↔ 1 ≤ m ∧ m ≤ 1)) :=
  rank_all_totality (fun _ _ _ => (0 : ℚ)) (fun _ => []) "q"
    [⟨"id1", "doc1", ["doc1"], "m"⟩] (by simp)
    (fun _ _ => (0 : ℚ)) (Query.text "q") [⟨"id1", "doc1", []⟩] (by simp)

/-- Claim C8: the sparse strategy sorts the corpus by BM25 score in
descending order before assigning ranks: the ranked frame's scores are
non-increasing, and the entry holding rank 1 carries a score at least as
large as every row's score for this query. -/
theorem sparse_rank1_highest (bm25 : List Row → String → Row → ℚ) (query : String)
    (table : List Row) (h : table ≠ []) :
    List.Pairwise (fun a b => b.2.1 ≤ a.2.1) (_retrieve_and_rank bm25 query table)
    ∧ ∃ first, (_retrieve_and_rank bm25 query table).head? = some first
        ∧ first.2.2 = 1
        ∧ ∀ row ∈ table, bm25 table query row ≤ first.2.1 := by
  have hscore := _retrieve_and_rank_score_col bm25 query table
  have hrank := _retrieve_and_rank_rank_col bm25 query table
  have hsorted := mergeSort_desc_sorted (table.map (fun row => (row, bm25 table query row)))
  have hperm := List.mergeSort_perm (table.map (fun row => (row, bm25 table query row)))
    (fun a b => decide (b.2 ≤ a.2))
  have hlen := _retrieve_and_rank_length bm25 query table
  have hne : _retrieve_and_rank bm25 query table ≠ [] := by
    intro hnil
    rw [hnil] at hlen
    exact h (List.length_eq_zero.mp hlen.symm)
  constructor
  · have hp : List.Pairwise (fun a b : ℚ => b ≤ a)
        ((_retrieve_and_rank bm25 query table).map (fun x => x.2.1)) := by
      rw [hscore]
      exact List.pairwise_map.mpr (hsorted.imp (fun hab => hab))
    exact List.pairwise_map.mp hp
  · obtain ⟨first, rest, hcons⟩ := List.exists_cons_of_ne_nil hne
    refine ⟨first, by rw [hcons]; rfl, ?_, ?_⟩
    · have h1 := congrArg List.head? hrank
      rw [hcons] at h1
      cases htl : table.length with
      | zero => exact absurd (List.length_eq_zero.mp htl) h
      | succ n =>
        rw [htl, List.range'_succ] at h1
        simpa using h1
    · intro row hrow
      cases hsl : (table.map (fun row => (row, bm25 table query row))).mergeSort
          (fun a b => decide (b.2 ≤ a.2)) with
      | nil =>
        have := congrArg List.length hsl
        rw [List.length_mergeSort, List.length_map] at this
        exact absurd (List.length_eq_zero.mp this) h
      | cons s0 stail =>
        have hfs : first.2.1 = s0.2 := by
          have h1 := congrArg List.head? hscore
          rw [hcons, hsl] at h1
          simpa using h1
        have hmem : (row, bm25 table query row) ∈ s0 :: stail := by
          rw [← hsl]
          exact hperm.mem_iff.mpr (List.mem_map.mpr ⟨row, hrow, rfl⟩)
        rw [hsl] at hsorted
        rcases List.mem_cons.mp hmem with heq | htail
        · rw [hfs, ← heq]
        · rw [hfs]
          exact List.rel_of_pairwise_cons hsorted htail

/-- Witness for C8 on a two-row corpus with distinct scores. -/
theorem sparse_rank1_highest_witness :
    List.Pairwise (fun a b => b.2.1 ≤ a.2.1)
      (_retrieve_and_rank (fun _ _ row => if row.ids = "a" then (1 : ℚ) else 2) "q"
        [⟨"a", "docA", ["x"], "m"⟩, ⟨"b", "docB", ["y"], "m"⟩])
    ∧ ∃ first, (_retrieve_and_rank (fun _ _ row => if row.ids = "a" then (1 : ℚ) else 2) "q"
          [⟨"a", "docA", ["x"], "m"⟩, ⟨"b", "docB", ["y"], "m"⟩]).head? = some first
        ∧ first.2.2 = 1
        ∧ ∀ row ∈ [(⟨"a", "docA", ["x"], "m"⟩ : Row), ⟨"b", "docB", ["y"], "m"⟩],
            (fun _ _ row => if row.ids = "a" then (1 : ℚ) else 2)
              ([(⟨"a", "docA", ["x"], "m"⟩ : Row), ⟨"b", "docB", ["y"], "m"⟩]) "q" row
              ≤ first.2.1 :=
  sparse_rank1_highest (fun _ _ row => if row.ids = "a" then (1 : ℚ) else 2) "q"
    [⟨"a", "docA", ["x"], "m"⟩, ⟨"b", "docB", ["y"], "m"⟩] (by simp)

/-- Claim C9: `CompositeRetriever.retrieve` applies the embedding stage
only under the key 'embed'; a descriptor carrying its embedder under the
constructor-documented key 'embedder' gets no embedding, and the
(possibly preprocessed) query text reaches `rank_all` unchanged. -/
theorem embed_key_not_embedder (st : Strategy) (q : String) (f : String → List Int)
    (hembed : st.embed = none) (hembedder : st.embedder = some f) :
    CompositeRetriever.stageQuery st q
      = Query.text (match st.preprocess with | some p => p q | none => q) := by
  rw [CompositeRetriever.stageQuery, hembed]

/-- Witness for C9: a descriptor whose embedder sits under 'embedder'. -/
theorem embed_key_not_embedder_witness :
    CompositeRetriever.stageQuery
        { name := some "dense", preprocess := none, embed := none,
          embedder := some (fun _ => [1, 2]), retriever := none } "life support"
      = Query.text "life support" :=
  embed_key_not_embedder
    { name := some "dense", preprocess := none, embed := none,
      embedder := some (fun _ => [1, 2]), retriever := none }
    "life support" (fun _ => [1, 2]) rfl rfl

/-- Claim C10: `SQLiteRetriever.connect` rejects any collection name
whose lower-case form is 'corpus' with the reserved-name assertion, for
every database state, and performs no collection-existence probe on the
way: the assertion precedes the existence check. -/
theorem connect_reserved_corpus (tables : List String) (dbpath collection_name : String)
    (h : pyLower collection_name = "corpus") :
    (SQLiteRetriever.connect tables dbpath collection_name).1
        = Except.error SQLiteRetriever.ConnectError.reservedName
    ∧ ∀ t, SQLiteRetriever.DbStep.tableRead t
        ∉ (SQLiteRetriever.connect tables dbpath collection_name).2 := by
  rw [SQLiteRetriever.connect]
  simp [h]

/-- Witness for C10: the table 'Corpus' exists in the database, and
connect still fails with the reserved-name assertion, probing nothing. -/
theorem connect_reserved_corpus_witness :
    (SQLiteRetriever.connect ["Corpus"] "papers.db" "Corpus").1
        = Except.error SQLiteRetriever.ConnectError.reservedName
    ∧ ∀ t, SQLiteRetriever.DbStep.tableRead t
        ∉ (SQLiteRetriever.connect ["Corpus"] "papers.db" "Corpus").2 :=
  connect_reserved_corpus ["Corpus"] "papers.db" "Corpus" (by decide)

/-- Claim C3 fails on the code: with two strategies over a corpus of two
documents and k = 50, `retrieve` raises no error and returns exactly two
fused scores in non-increasing order, but the documents and metadatas
sequences contain four entries — one per (selected id, containing
strategy) pair — because the dedup dict `temp` is never written.  The
returned result length is 4, not the corpus size 2, and with k = 1 the
documents list holds 2 > k entries. -/
theorem composite_retrieve_overcount :
    CompositeRetriever.retrieve [stratDense, stratSparse] ReciprocalRerankFusion.rerank "q" 50
      = Except.ok (["docA1", "docB1", "docA2", "docB2"], [2/62, 2/63],
          [[("t", "A1")], [("t", "B1"), ("u", "B")], [("t", "A2")], [("t", "B2")]]) := by
  simp [CompositeRetriever.retrieve, CompositeRetriever.runStrategies,
    CompositeRetriever.stageQuery, CompositeRetriever.assemble, dictInsert, dictUnion,
    stratDense, stratSparse, rankAllDense, rankAllSparse,
    ReciprocalRerankFusion.rerank, ReciprocalRerankFusion.unionDocs,
    ReciprocalRerankFusion.dedupFirst, ReciprocalRerankFusion.scoreOf,
    ReciprocalRerankFusion.paddedRanks, ReciprocalRerankFusion.collectRanks,
    ReciprocalRerankFusion.maxRank, _rrf, List.mergeSort, List.lookup, List.indexOf?,
    List.foldlM, bind, Except.bind, pure, Except.pure, List.findIdx?]
  norm_num
  exact ⟨rfl, rfl, rfl⟩

/-- Claim C4 fails on the code: for the single selected document d1,
which both strategies contain with different metadata, `retrieve`
appends the document text of EVERY containing strategy (docA1 and docB1)
and each strategy's metadata dict separately — the first-strategy-wins
merge is dead code, since `temp = {}` is never populated. -/
theorem composite_retrieve_no_merge :
    CompositeRetriever.retrieve [stratDense, stratSparse] ReciprocalRerankFusion.rerank "q" 1
      = Except.ok (["docA1", "docB1"], [2/62],
          [[("t", "A1")], [("t", "B1"), ("u", "B")]]) := by
  simp [CompositeRetriever.retrieve, CompositeRetriever.runStrategies,
    CompositeRetriever.stageQuery, CompositeRetriever.assemble, dictInsert, dictUnion,
    stratDense, stratSparse, rankAllDense, rankAllSparse,
    ReciprocalRerankFusion.rerank, ReciprocalRerankFusion.unionDocs,
    ReciprocalRerankFusion.dedupFirst, ReciprocalRerankFusion.scoreOf,
    ReciprocalRerankFusion.paddedRanks, ReciprocalRerankFusion.collectRanks,
    ReciprocalRerankFusion.maxRank, _rrf, List.mergeSort, List.lookup, List.indexOf?,
    List.foldlM, bind, Except.bind, pure, Except.pure, List.findIdx?]
  norm_num

/-- Counterexample to claim C7: a descriptor missing the required
'retriever' binding passes `CompositeRetriever.__init__` untouched (the
constructor stores it and raises nothing), and the KeyError surfaces for
the first time inside `retrieve` — in the middle of answering a query. -/
theorem config_error_counterexample :
    CompositeRetriever.init [⟨some "sparse", none, none, none, none⟩]
        ReciprocalRerankFusion.rerank
      = { strategies_ := [⟨some "sparse", none, none, none, none⟩],
          reranker_ := ReciprocalRerankFusion.rerank }
    ∧ CompositeRetriever.retrieve [⟨some "sparse", none, none, none, none⟩]
        ReciprocalRerankFusion.rerank "q" 5
      = Except.error (PyError.keyError "retriever") :=
  ⟨rfl, rfl⟩

/-- Claim C7 as amended: construction never validates descriptors — it
returns a state holding exactly its arguments — and a strategy missing
'retriever' makes the first `retrieve` call throw KeyError 'retriever'
during its strategy iteration, mid-query. -/
theorem config_error_amended (strategies rest : List Strategy)
    (reranker : Rankings → List (DocId × ℚ)) (q : String) (k : Nat) (nm : StrategyName)
    (bad : Strategy) (hname : bad.name = some nm) (hretr : bad.retriever = none) :
    CompositeRetriever.init strategies reranker
        = { strategies_ := strategies, reranker_ := reranker }
    ∧ CompositeRetriever.retrieve (bad :: rest) reranker q k
        = Except.error (PyError.keyError "retriever") := by
  obtain ⟨bn, bp, be, bed, br⟩ := bad
  simp only at hname hretr
  subst hname
  subst hretr
  exact ⟨rfl, rfl⟩

/-- Witness for the amended C7 at a concrete malformed descriptor. -/
theorem config_error_amended_witness :
    CompositeRetriever.init [stratDense] ReciprocalRerankFusion.rerank
        = { strategies_ := [stratDense], reranker_ := ReciprocalRerankFusion.rerank }
    ∧ CompositeRetriever.retrieve
        (⟨some "broken", none, none, none, none⟩ :: [stratDense])
        ReciprocalRerankFusion.rerank "life support" 5
      = Except.error (PyError.keyError "retriever") :=
  config_error_amended [stratDense] [stratDense] ReciprocalRerankFusion.rerank
    "life support" 5 "broken" ⟨some "broken", none, none, none, none⟩ rfl rfl

section MonotonicityLemmas

open ReciprocalRerankFusion

theorem lookup_if_eq {β : Type} (d k : String) (b : β) (es : List (String × β)) :
    List.lookup d ((k, b) :: es) = if d = k then some b else List.lookup d es := by
  by_cases h : d = k
  · simp [List.lookup_cons, h]
  · have hb : (d == k) = false := by simp [h]
    rw [List.lookup_cons, hb, if_neg h]

theorem lookup_subst (d : DocId) (r2 : Nat) :
    ∀ (A : List (DocId × Nat)) (r : Nat), List.lookup d A = some r →
      List.lookup d (A.map (fun p => if p.1 = d then (p.1, r2) else p)) = some r2 := by
  intro A
  induction A with
  | nil => intro r h; cases h
  | cons p tl ih =>
    obtain ⟨k, b⟩ := p
    intro r h
    rw [lookup_if_eq] at h
    by_cases hdk : d = k
    · simp only [List.map_cons]
      have hif : (if (k, b).1 = d then ((k, b).1, r2) else (k, b)) = (k, r2) :=
        if_pos hdk.symm
      rw [hif, lookup_if_eq, if_pos hdk]
    · rw [if_neg hdk] at h
      simp only [List.map_cons]
      have hif : (if (k, b).1 = d then ((k, b).1, r2) else (k, b)) = (k, b) :=
        if_neg (fun hc => hdk (hc.symm))
      rw [hif, lookup_if_eq, if_neg hdk]
      exact ih _ h

theorem lookup_mem {β : Type} (d : String) :
    ∀ (A : List (String × β)) (v : β), List.lookup d A = some v → (d, v) ∈ A := by
  intro A
  induction A with
  | nil => intro v h; cases h
  | cons p tl ih =>
    obtain ⟨k, b⟩ := p
    intro v h
    rw [lookup_if_eq] at h
    by_cases hdk : d = k
    · rw [if_pos hdk] at h
      have hb : b = v := Option.some.inj h
      subst hdk
      subst hb
      exact List.mem_cons_self _ _
    · rw [if_neg hdk] at h
      exact List.mem_cons_of_mem _ (ih v h)

theorem updateRank_not_mem (R : Rankings) (s : StrategyName) (d : DocId) (r2 : Nat)
    (h : s ∉ R.map Prod.fst) : updateRank R s d r2 = R := by
  induction R with
  | nil => rfl
  | cons t rest ih =>
    simp only [List.map_cons, List.mem_cons, not_or] at h
    obtain ⟨h1, h2⟩ := h
    rw [updateRank, List.map_cons, if_neg (fun hc : t.1 = s => h1 hc.symm)]
    have h3 := ih h2
    rw [updateRank] at h3
    rw [h3]

theorem collectRanks_update_forall2 (s : StrategyName) (d : DocId) (r2 : Nat) :
    ∀ (R : Rankings) (A : List (DocId × Nat)) (r : Nat),
      (R.map Prod.fst).Nodup → List.lookup s R = some A → List.lookup d A = some r →
      r2 ≤ r →
      List.Forall₂ (fun a b => a ≤ b)
        (ReciprocalRerankFusion.collectRanks (updateRank R s d r2) d)
        (ReciprocalRerankFusion.collectRanks R d) := by
  intro R
  induction R with
  | nil => intro A r _ hA; cases hA
  | cons t rest ih =>
    intro A r hnd hA hd hle
    obtain ⟨tn, tm⟩ := t
    simp only [List.map_cons, List.nodup_cons] at hnd
    obtain ⟨hnotin, hndrest⟩ := hnd
    rw [lookup_if_eq] at hA
    by_cases hts : s = tn
    · subst hts
      rw [if_pos rfl] at hA
      have hAtm : tm = A := Option.some.inj hA
      subst hAtm
      have htail : rest.map (fun t =>
          if t.1 = s then (t.1, t.2.map (fun p => if p.1 = d then (p.1, r2) else p)) else t)
          = rest := by
        have h3 := updateRank_not_mem rest s d r2 hnotin
        rw [updateRank] at h3
        exact h3
      rw [updateRank, List.map_cons, if_pos rfl, htail]
      rw [ReciprocalRerankFusion.collectRanks, List.filterMap_cons,
        ReciprocalRerankFusion.collectRanks, List.filterMap_cons]
      rw [show List.lookup d ((s, tm).2.map (fun p => if p.1 = d then (p.1, r2) else p))
            = some r2 from lookup_subst d r2 tm r hd]
      rw [show List.lookup d (s, tm).2 = some r from hd]
      exact List.Forall₂.cons hle (List.forall₂_same.mpr (fun x _ => le_refl x))
    · rw [if_neg hts] at hA
      rw [updateRank, List.map_cons, if_neg (fun hc : (tn, tm).1 = s => hts hc.symm)]
      have hitail := ih A r hndrest hA hd hle
      rw [updateRank] at hitail
      rw [ReciprocalRerankFusion.collectRanks, List.filterMap_cons,
        ReciprocalRerankFusion.collectRanks, List.filterMap_cons]
      rw [ReciprocalRerankFusion.collectRanks, ReciprocalRerankFusion.collectRanks] at hitail
      cases hlk : List.lookup d (tn, tm).2 with
      | none => exact hitail
      | some v => exact List.Forall₂.cons (le_refl v) hitail

theorem maxRank_update_le (R : Rankings) (s : StrategyName) (d : DocId)
    (A : List (DocId × Nat)) (r r2 : Nat)
    (hA : List.lookup s R = some A) (hd : List.lookup d A = some r) (hle : r2 ≤ r) :
    ReciprocalRerankFusion.maxRank (updateRank R s d r2)
      ≤ ReciprocalRerankFusion.maxRank R := by
  apply maxRank_le
  intro s2 hs2 p hp
  rw [updateRank] at hs2
  obtain ⟨t, htR, rfl⟩ := List.mem_map.mp hs2
  by_cases hts : t.1 = s
  · rw [if_pos hts] at hp
    obtain ⟨p0, hp0, rfl⟩ := List.mem_map.mp hp
    by_cases hpd : p0.1 = d
    · rw [if_pos hpd]
      have hdr : (d, r) ∈ A := lookup_mem d A r hd
      have hsA : (s, A) ∈ R := lookup_mem s R A hA
      exact le_trans hle (rank_le_maxRank R (s, A) hsA (d, r) hdr)
    · rw [if_neg hpd]
      exact rank_le_maxRank R t htR p0 hp0
  · rw [if_neg hts] at hp
    exact rank_le_maxRank R t htR p hp

theorem forall2_replicate (n : Nat) (a b : Nat) (h : a ≤ b) :
    List.Forall₂ (fun x y => x ≤ y) (List.replicate n a) (List.replicate n b) := by
  induction n with
  | zero => exact List.Forall₂.nil
  | succ n ih => exact List.Forall₂.cons h ih

theorem rrf_le_of_forall2 (l l2 : List Nat)
    (h : List.Forall₂ (fun a b => a ≤ b) l l2) : _rrf l2 60 ≤ _rrf l 60 := by
  rw [_rrf_eq_sum, _rrf_eq_sum]
  induction h with
  | nil => exact le_refl _
  | cons hab htl ih =>
    rw [List.map_cons, List.map_cons, List.sum_cons, List.sum_cons]
    apply add_le_add _ ih
    apply one_div_le_one_div_of_le
    · positivity
    · have hc := (Nat.cast_le (α := ℚ)).mpr hab
      linarith

theorem padded_update_forall2 (R : Rankings) (s : StrategyName) (d : DocId)
    (A : List (DocId × Nat)) (r r2 : Nat)
    (hnd : (R.map Prod.fst).Nodup)
    (hA : List.lookup s R = some A) (hd : List.lookup d A = some r) (hle : r2 ≤ r) :
    List.Forall₂ (fun a b => a ≤ b)
      (ReciprocalRerankFusion.paddedRanks (updateRank R s d r2) d)
      (ReciprocalRerankFusion.paddedRanks R d) := by
  have F := collectRanks_update_forall2 s d r2 R A r hnd hA hd hle
  have hmax := maxRank_update_le R s d A r r2 hA hd hle
  have hlenR : (updateRank R s d r2).length = R.length := by
    rw [updateRank, List.length_map]
  rw [ReciprocalRerankFusion.paddedRanks, ReciprocalRerankFusion.paddedRanks]
  apply List.rel_append F
  rw [F.length_eq, hlenR]
  exact forall2_replicate _ _ _ (Nat.succ_le_succ hmax)

end MonotonicityLemmas

/-- Claim C6: improving (lowering) document d's rank in one strategy
while every other binding of the fusion input is unchanged does not
decrease d's fused score: both for the scoring function applied by
`rerank` and for the score entries of `rerank`'s output. -/
theorem rrf_fusion_monotonic (R : Rankings) (s : StrategyName) (d : DocId)
    (A : List (DocId × Nat)) (r r2 : Nat)
    (hnd : (R.map Prod.fst).Nodup)
    (hA : List.lookup s R = some A) (hd : List.lookup d A = some r) (hle : r2 ≤ r) :
    ReciprocalRerankFusion.scoreOf R d
        ≤ ReciprocalRerankFusion.scoreOf (updateRank R s d r2) d
    ∧ ∀ p ∈ ReciprocalRerankFusion.rerank R, p.1 = d →
        ∀ q ∈ ReciprocalRerankFusion.rerank (updateRank R s d r2), q.1 = d →
          p.2 ≤ q.2 := by
  have hmain : ReciprocalRerankFusion.scoreOf R d
      ≤ ReciprocalRerankFusion.scoreOf (updateRank R s d r2) d := by
    rw [ReciprocalRerankFusion.scoreOf, ReciprocalRerankFusion.scoreOf]
    exact rrf_le_of_forall2 _ _ (padded_update_forall2 R s d A r r2 hnd hA hd hle)
  refine ⟨hmain, ?_⟩
  intro p hp hpd q hq hqd
  rw [mem_rerank_val R p hp, mem_rerank_val _ q hq, hpd, hqd]
  exact hmain

/-- Witness for C6: document d improves from rank 3 to rank 1 in
strategy A while strategy B and document e are untouched. -/
theorem rrf_fusion_monotonic_witness :
    ReciprocalRerankFusion.scoreOf [("A", [("d", 3), ("e", 1)]), ("B", [("d", 2)])] "d"
        ≤ ReciprocalRerankFusion.scoreOf
            (updateRank [("A", [("d", 3), ("e", 1)]), ("B", [("d", 2)])] "A" "d" 1) "d"
    ∧ ∀ p ∈ ReciprocalRerankFusion.rerank [("A", [("d", 3), ("e", 1)]), ("B", [("d", 2)])],
        p.1 = "d" →
        ∀ q ∈ ReciprocalRerankFusion.rerank
            (updateRank [("A", [("d", 3), ("e", 1)]), ("B", [("d", 2)])] "A" "d" 1),
          q.1 = "d" → p.2 ≤ q.2 :=
  rrf_fusion_monotonic [("A", [("d", 3), ("e", 1)]), ("B", [("d", 2)])] "A" "d"
    [("d", 3), ("e", 1)] 3 1 (by decide) (by decide) (by decide) (by decide)
